import Mathlib

/-!
Shallow embedding of `ssh_file.py`, a chunked SSH file uploader that pushes a
local file to a remote host by driving a remote shell with `printf` append
commands over one of several transport backends.

Pure fragments of the Python source (the octal escape encoder, the chunking
loop, the size verifier, the per-backend command sequences and the backend
selection tree) are translated into executable Lean definitions; interactions
with the network, the spawned process and the filesystem are represented by
explicit oracles describing the environment's responses (including which calls
raise exceptions).
-/

namespace SshFile

/-! ## Octal escape encoder (lines 126, 227, 298, 366 of `ssh_file.py`) -/

/-- ASCII octal digit test (`'0'` through `'7'`). -/
def isOctalDigit (c : Char) : Bool :=
  decide (48 ≤ c.toNat) && decide (c.toNat ≤ 55)

/-- Numeric value of an ASCII digit character. -/
def octDigitVal (c : Char) : Nat := c.toNat - 48

/-- Python `str.zfill(3)`: left-pad with `'0'` up to width 3. -/
def zfill3 (s : List Char) : List Char := List.replicate (3 - s.length) '0' ++ s

/-- One byte of the encoder: Python `f'\\{oct(b)[2:].zfill(3)}'`.
`oct(b)[2:]` is the octal digit string of `b`, i.e. `Nat.toDigits 8 b`. -/
def octalEscapeByte (b : Nat) : String :=
  "\\" ++ String.mk (zfill3 (Nat.toDigits 8 b))

/-- The encoder applied to a chunk: Python `''.join(f'\\{oct(b)[2:].zfill(3)}' for b in chunk)`. -/
def octalEscape (chunk : List Nat) : String :=
  String.join (chunk.map octalEscapeByte)

/-- Modelled from the spec: the remote shell's `printf` unescaping of octal
escapes, which is not part of this repository's source.  After a backslash,
up to three octal digits are consumed greedily and emitted as one byte
(modulo 256); any other character passes through as its own code point, and
a backslash not starting an octal escape is emitted literally. -/
def printfUnescape : List Char → List Nat
  | [] => []
  | ['\\'] => ['\\'.toNat]
  | ['\\', c1] =>
      if isOctalDigit c1 then [octDigitVal c1] else ['\\'.toNat, c1.toNat]
  | ['\\', c1, c2] =>
      if isOctalDigit c1 then
        if isOctalDigit c2 then [octDigitVal c1 * 8 + octDigitVal c2]
        else octDigitVal c1 :: printfUnescape [c2]
      else '\\'.toNat :: printfUnescape [c1, c2]
  | '\\' :: c1 :: c2 :: c3 :: rest =>
      if isOctalDigit c1 then
        if isOctalDigit c2 then
          if isOctalDigit c3 then
            ((octDigitVal c1 * 8 + octDigitVal c2) * 8 + octDigitVal c3) % 256 ::
              printfUnescape rest
          else (octDigitVal c1 * 8 + octDigitVal c2) :: printfUnescape (c3 :: rest)
        else octDigitVal c1 :: printfUnescape (c2 :: c3 :: rest)
      else '\\'.toNat :: printfUnescape (c1 :: c2 :: c3 :: rest)
  | c :: rest => c.toNat :: printfUnescape rest

/-- Decidable per-byte soundness of the encoder output: the escape of a byte
is a backslash followed by three octal digits whose value is the byte. -/
def escOk (b : Nat) : Bool :=
  match (octalEscapeByte b).data with
  | ['\\', c1, c2, c3] =>
      isOctalDigit c1 && isOctalDigit c2 && isOctalDigit c3 &&
        (((octDigitVal c1 * 8 + octDigitVal c2) * 8 + octDigitVal c3) % 256 == b)
  | _ => false

set_option maxRecDepth 4000 in
theorem escOk_true : ∀ b : Fin 256, escOk b.val = true := by decide

theorem data_append (a b : String) : (a ++ b).data = a.data ++ b.data := rfl

theorem join_data_aux (l : List String) :
    ∀ s : String, (l.foldl (fun r t => r ++ t) s).data =
      s.data ++ (l.map String.data).flatten := by
  induction l with
  | nil => intro s; simp
  | cons a l ih =>
      intro s
      simp only [List.foldl_cons, List.map_cons, List.flatten_cons]
      rw [ih, data_append, List.append_assoc]

theorem join_data (l : List String) :
    (String.join l).data = (l.map String.data).flatten := by
  have h := join_data_aux l ""
  simpa [String.join] using h

theorem octalEscape_cons (b : Nat) (B : List Nat) :
    (octalEscape (b :: B)).data = (octalEscapeByte b).data ++ (octalEscape B).data := by
  simp only [octalEscape, join_data, List.map_cons, List.flatten_cons]

/-- Encode-then-unescape round trip, one byte at the head. -/
theorem printfUnescape_escByte (b : Nat) (hb : b < 256) (rest : List Char) :
    printfUnescape ((octalEscapeByte b).data ++ rest) = b :: printfUnescape rest := by
  have he := escOk_true ⟨b, hb⟩
  unfold escOk at he
  split at he
  · next c1 c2 c3 heq =>
      simp only [Bool.and_eq_true, beq_iff_eq] at he
      obtain ⟨⟨⟨h1, h2⟩, h3⟩, h4⟩ := he
      rw [heq]
      simp only [List.cons_append, List.nil_append]
      simp only [printfUnescape, h1, h2, h3, if_true]
      exact congrArg (· :: printfUnescape rest) h4
  · exact absurd he (by simp)

/-- **C1** For every input byte buffer `B`, encoding each byte as a backslash
followed by a three-digit zero-padded octal escape (as the encoder at lines
126/227/298/366 does) and then applying the shell's `printf` unescaping of
octal escapes reproduces `B` exactly, including the bytes 0x00, 0x0A, 0x22
and 0x5C. -/
theorem octalEscape_roundtrip (B : List Nat) (hB : ∀ b ∈ B, b < 256) :
    printfUnescape (octalEscape B).data = B := by
  induction B with
  | nil => rfl
  | cons b B ih =>
      rw [octalEscape_cons, printfUnescape_escByte b (hB b (by simp)) _]
      exact congrArg (b :: ·) (ih fun x hx => hB x (by simp [hx]))

/-- Witness for C1 at a concrete buffer containing 0x00, 0x0A, 0x22, 0x5C. -/
theorem octalEscape_roundtrip_witness :
    printfUnescape (octalEscape [0, 10, 34, 92, 255]).data = [0, 10, 34, 92, 255] :=
  octalEscape_roundtrip [0, 10, 34, 92, 255] (by decide)

/-! ## Chunking (`for i in range(0, len(file_data), chunk_size)`) -/

/-- Python `range(start, stop, step)` for a positive `step`, with explicit
fuel (`stop - start` suffices when `1 ≤ step`). -/
def rangeStepGo (stop step : Nat) : Nat → Nat → List Nat
  | _, 0 => []
  | start, fuel + 1 =>
      if start < stop then start :: rangeStepGo stop step (start + step) fuel else []

/-- Python `range(start, stop, step)`, `step ≥ 1`. -/
def rangeStep (start stop step : Nat) : List Nat :=
  rangeStepGo stop step start (stop - start)

/-- The chunk list of the streaming loop: Python
`[file_data[i:i + chunk_size] for i in range(0, len(file_data), chunk_size)]`. -/
def pyChunks (data : List Nat) (chunkSize : Nat) : List (List Nat) :=
  (rangeStep 0 data.length chunkSize).map fun i => (data.drop i).take chunkSize

/-- The fuel argument is irrelevant once it is at least `stop - start`. -/
theorem rangeStepGo_irrel (stop step : Nat) (hs : 1 ≤ step) :
    ∀ fuel start, stop - start ≤ fuel →
      rangeStepGo stop step start fuel = rangeStepGo stop step start (stop - start) := by
  intro fuel
  induction fuel using Nat.strong_induction_on with
  | _ fuel ih =>
    intro start h
    cases fuel with
    | zero =>
        rw [Nat.le_zero.mp h]
    | succ n =>
        by_cases hlt : start < stop
        · have hms : stop - start = (stop - start - 1) + 1 := by omega
          rw [hms]
          simp only [rangeStepGo, if_pos hlt]
          rw [ih n (by omega) (start + step) (by omega),
            ih (stop - start - 1) (by omega) (start + step) (by omega)]
        · have h0 : stop - start = 0 := by omega
          rw [h0]
          simp [rangeStepGo, hlt]

/-- Unfolding equation for `rangeStep` when the step is positive. -/
theorem rangeStep_eq (start stop step : Nat) (hs : 1 ≤ step) :
    rangeStep start stop step =
      if start < stop then start :: rangeStep (start + step) stop step else [] := by
  by_cases hlt : start < stop
  · rw [if_pos hlt]
    show rangeStepGo stop step start (stop - start) = _
    have hms : stop - start = (stop - start - 1) + 1 := by omega
    rw [hms]
    simp only [rangeStepGo, if_pos hlt]
    rw [rangeStep]
    exact congrArg _ (rangeStepGo_irrel stop step hs (stop - start - 1) (start + step) (by omega))
  · rw [if_neg hlt]
    show rangeStepGo stop step start (stop - start) = _
    have h0 : stop - start = 0 := by omega
    rw [h0]
    rfl

/-- The chunks of the streaming loop cover the buffer from `start` on,
in order, with no gaps or overlaps. -/
theorem chunks_flatten_from (S : Nat) (hS : 1 ≤ S) (data : List Nat) (start : Nat) :
    ((rangeStep start data.length S).map fun i => (data.drop i).take S).flatten =
      data.drop start := by
  rw [rangeStep_eq _ _ _ hS]
  by_cases hlt : start < data.length
  · rw [if_pos hlt]
    simp only [List.map_cons, List.flatten_cons]
    rw [chunks_flatten_from S hS data (start + S)]
    have hdd : data.drop (start + S) = (data.drop start).drop S := by
      rw [List.drop_drop, Nat.add_comm]
    rw [hdd, List.take_append_drop]
  · rw [if_neg hlt]
    simp only [List.map_nil, List.flatten_nil]
    rw [List.drop_eq_nil_of_le (by omega)]
termination_by data.length - start
decreasing_by omega

/-- Number of loop iterations: `⌈(stop - start) / step⌉`. -/
theorem rangeStep_length (stop step : Nat) (hs : 1 ≤ step) (start : Nat) :
    (rangeStep start stop step).length = (stop - start + step - 1) / step := by
  rw [rangeStep_eq _ _ _ hs]
  by_cases hlt : start < stop
  · rw [if_pos hlt]
    simp only [List.length_cons]
    rw [rangeStep_length stop step hs (start + step)]
    rcases le_or_lt step (stop - start) with hc | hc
    · have h1 : stop - (start + step) + step - 1 = stop - start - 1 := by omega
      have h2 : stop - start + step - 1 = (stop - start - 1) + step := by omega
      rw [h1, h2, Nat.add_div_right _ (by omega)]
    · have h1 : stop - (start + step) + step - 1 = step - 1 := by omega
      rw [h1, Nat.div_eq_of_lt (by omega)]
      refine (Nat.div_eq_of_lt_le (by omega) (by omega)).symm
  · rw [if_neg hlt]
    have h0 : stop - start = 0 := by omega
    rw [h0]
    simp [Nat.div_eq_of_lt (by omega : step - 1 < step)]
termination_by stop - start
decreasing_by omega

/-- The chunks cover the buffer exactly once, in order. -/
theorem pyChunks_flatten (data : List Nat) (S : Nat) (hS : 1 ≤ S) :
    (pyChunks data S).flatten = data := by
  have h := chunks_flatten_from S hS data 0
  simpa [pyChunks] using h

/-- ⌈L/S⌉ chunks are produced. -/
theorem pyChunks_length (data : List Nat) (S : Nat) (hS : 1 ≤ S) :
    (pyChunks data S).length = (data.length + S - 1) / S := by
  have h := rangeStep_length data.length S hS 0
  simpa [pyChunks] using h

theorem rangeStep_2048_800 : rangeStep 0 2048 800 = [0, 800, 1600] := by decide

/-- A 2048-byte buffer with chunk size 800 yields chunk sizes 800, 800, 448. -/
theorem pyChunks_sizes_2048 (data : List Nat) (h : data.length = 2048) :
    (pyChunks data 800).map List.length = [800, 800, 448] := by
  rw [pyChunks, h, rangeStep_2048_800]
  simp [List.length_take, List.length_drop, h]

/-! ## Size verifier (lines 148-163 of `ssh_file.py`) -/

/-- ASCII decimal digit test. -/
def isAsciiDigit (c : Char) : Bool :=
  decide (48 ≤ c.toNat) && decide (c.toNat ≤ 57)

/-- Python whitespace characters stripped by `str.strip()` and by `int()`. -/
def isPySpace (c : Char) : Bool :=
  c = ' ' || c = '\t' || c = '\n' || c = '\x0d' || c = '\x0b' || c = '\x0c'

/-- Python `str.strip()` on ASCII text: drop whitespace at both ends. -/
def pyStrip (cs : List Char) : List Char :=
  ((cs.dropWhile isPySpace).reverse.dropWhile isPySpace).reverse

/-- Digits of a Python decimal integer literal after the first digit:
a run of digits in which single underscores may separate digits. -/
def pyDigitsTail : List Char → Option (List Char)
  | [] => some []
  | '_' :: c :: rest =>
      if isAsciiDigit c then (pyDigitsTail rest).map (c :: ·) else none
  | ['_'] => none
  | c :: rest =>
      if isAsciiDigit c then (pyDigitsTail rest).map (c :: ·) else none

/-- Decimal value of a digit list. -/
def digitsToNat (ds : List Char) : Nat :=
  ds.foldl (fun acc c => acc * 10 + (c.toNat - 48)) 0

/-- Parse an unsigned run of digits (with Python's underscore rule). -/
def pyNatOfDigits : List Char → Option Nat
  | [] => none
  | c :: rest =>
      if isAsciiDigit c then (pyDigitsTail rest).map (fun ds => digitsToNat (c :: ds))
      else none

/-- Python `int(s)` on a decimal string: strip whitespace, optional sign,
then a digit run.  `none` models the `ValueError` raised for anything else. -/
def parsePyInt (s : String) : Option Int :=
  match pyStrip s.data with
  | '+' :: rest => (pyNatOfDigits rest).map fun n => (n : Int)
  | '-' :: rest => (pyNatOfDigits rest).map fun n => -(n : Int)
  | rest => (pyNatOfDigits rest).map fun n => (n : Int)

/-- The size-verification phase of `transfer_with_paramiko` (lines 148-163):
`int(remote_size_str)` is compared with `len(file_data)`; on `ValueError`
the transfer is assumed successful. -/
def verifySize (remote_size_str : String) (local_size : Nat) : Bool :=
  match parsePyInt remote_size_str with
  | some remote_size => remote_size == (local_size : Int)
  | none => true

/-! ## Remote command strings (lines 113, 129, 148, 214, 230, 285, 301, 353, 369) -/

/-- Python `f'> {remote_path}'` — the truncate command. -/
def truncateCmd (p : String) : String := "> " ++ p

/-- Python `f'printf "{octal_data}" >> {remote_path}'` — one append command. -/
def appendCmd (p : String) (chunk : List Nat) : String :=
  "printf \"" ++ octalEscape chunk ++ "\" >> " ++ p

/-- Python `f'wc -c < {remote_path}'` — the byte-count verification query. -/
def verifyCmd (p : String) : String := "wc -c < " ++ p

/-! ## Session events and environment oracles

The stateful interactions of a backend (paramiko calls, `process.stdin`
writes, waits, kills) are recorded as a trace of events.  The environment's
behaviour — which calls raise exceptions, each remote command's exit status,
and the text answered to the byte-count query — is an oracle argument. -/

inductive Ev where
  | connect : Ev
  | execTrunc (cmd : String) : Ev
  | execAppend (chunk : List Nat) (cmd : String) : Ev
  | execVerify (cmd : String) : Ev
  | logError (idx : Nat) : Ev
  | close : Ev
  | writeTrunc (line : String) : Ev
  | writeAppend (chunk : List Nat) (line : String) : Ev
  | writeExit (line : String) : Ev
  | waitProc (timeoutSecs : Nat) : Ev
  | kill : Ev
deriving DecidableEq

/-- Environment oracle for `transfer_with_paramiko`: whether `ssh.connect`
raises, whether the k-th `exec_command` call raises (0 is the truncate,
`i + 1` the i-th chunk, `N + 1` the `wc -c` query), the exit status of each
chunk command, and the decoded-stripped text of the `wc -c` reply. -/
structure ParamikoOracle where
  connectRaises : Bool
  execRaises : Nat → Bool
  chunkStatus : Nat → Int
  sizeResponse : String

/-- The `for i in range(0, len(file_data), chunk_size)` loop of
`transfer_with_paramiko` (lines 122-143): execute one `printf` append per
chunk, wait for its exit status, log (but do not abort on) a non-zero
status.  Returns the events and whether the loop ran to completion
(`false` means an `exec_command` raised, ending the whole call). -/
def paramikoChunkLoop (p : String) (o : ParamikoOracle) :
    List (List Nat) → Nat → List Ev × Bool
  | [], _ => ([], true)
  | c :: rest, i =>
      if o.execRaises (i + 1) then ([], false)
      else
        let logs : List Ev := if o.chunkStatus i ≠ 0 then [Ev.logError i] else []
        let r := paramikoChunkLoop p o rest (i + 1)
        (Ev.execAppend c (appendCmd p c) :: (logs ++ r.1), r.2)

/-- `transfer_with_paramiko` (lines 90-170): connect, truncate, stream
chunks of 800 bytes, then verify the byte count and close.  Any exception is
caught at the bottom and becomes `return False`; on an exception path the
remaining steps (including `ssh.close()`) are skipped. -/
def transfer_with_paramiko (p : String) (data : List Nat) (o : ParamikoOracle) :
    List Ev × Bool :=
  if o.connectRaises then ([], false)
  else if o.execRaises 0 then ([Ev.connect], false)
  else
    let chunks := pyChunks data 800
    let r := paramikoChunkLoop p o chunks 0
    let pre := Ev.connect :: Ev.execTrunc (truncateCmd p) :: r.1
    if r.2 = false then (pre, false)
    else if o.execRaises (chunks.length + 1) then (pre, false)
    else (pre ++ [Ev.execVerify (verifyCmd p), Ev.close],
      verifySize o.sizeResponse data.length)

/-- Environment oracle for the pipe backends: whether `subprocess.Popen`
raises, whether the k-th `stdin.write` raises (0 is the truncate line,
`i + 1` the i-th chunk line, `N + 1` the `exit` line), and whether
`process.wait(timeout)` returns before the timeout. -/
structure PipeOracle where
  spawnRaises : Bool
  writeRaises : Nat → Bool
  exitsInTime : Bool

/-- The chunk loop of a pipe backend: write one `printf` append line per
chunk to the process's stdin. -/
def pipeChunkLoop (p : String) (o : PipeOracle) :
    List (List Nat) → Nat → List Ev × Bool
  | [], _ => ([], true)
  | c :: rest, i =>
      if o.writeRaises (i + 1) then ([], false)
      else
        let r := pipeChunkLoop p o rest (i + 1)
        (Ev.writeAppend c (appendCmd p c ++ "\n") :: r.1, r.2)

/-- Shared shape of the three pipe backends (they differ only in chunk size
and wait timeout): spawn `ssh` with piped stdin, write the truncate line,
write one append line per chunk, write `exit`, then wait on the process,
killing it and reporting failure if the timeout expires.  No byte-count
verification happens; success is just "the process exited in time".
Exceptions are caught at the bottom and become `return False`. -/
def pipeTransfer (chunkSize timeoutSecs : Nat) (p : String) (data : List Nat)
    (o : PipeOracle) : List Ev × Bool :=
  if o.spawnRaises then ([], false)
  else if o.writeRaises 0 then ([Ev.connect], false)
  else
    let chunks := pyChunks data chunkSize
    let r := pipeChunkLoop p o chunks 0
    let pre := Ev.connect :: Ev.writeTrunc (truncateCmd p ++ "\n") :: r.1
    if r.2 = false then (pre, false)
    else if o.writeRaises (chunks.length + 1) then (pre, false)
    else if o.exitsInTime then
      (pre ++ [Ev.writeExit "exit\n", Ev.waitProc timeoutSecs], true)
    else
      (pre ++ [Ev.writeExit "exit\n", Ev.waitProc timeoutSecs, Ev.kill], false)

/-- `transfer_with_sshpass` (lines 259-323): chunk size 800, wait timeout 10 s. -/
def transfer_with_sshpass (p : String) (data : List Nat) (o : PipeOracle) :
    List Ev × Bool :=
  pipeTransfer 800 10 p data o

/-- `transfer_with_subprocess_basic` (lines 326-393): chunk size 800, wait
timeout 30 s. -/
def transfer_with_subprocess_basic (p : String) (data : List Nat) (o : PipeOracle) :
    List Ev × Bool :=
  pipeTransfer 800 30 p data o

/-- `transfer_with_windows_openssh` (lines 173-256): first run `ssh -V`; a
non-zero exit raises, which the function's own `except` turns into
`return False` before any remote interaction.  With a password it also
returns `False` immediately.  Otherwise: chunk size 500, wait timeout 30 s. -/
def transfer_with_windows_openssh (passwordGiven sshCheckOk : Bool) (p : String)
    (data : List Nat) (o : PipeOracle) : List Ev × Bool :=
  if sshCheckOk = false then ([], false)
  else if passwordGiven then ([], false)
  else pipeTransfer 500 30 p data o

/-! ## Backend selection (lines 11-87 of `ssh_file.py`) -/

inductive Backend where
  | paramiko : Backend
  | windowsOpenssh : Backend
  | sshpass : Backend
  | subprocessBasic : Backend
deriving DecidableEq

/-- Local tool availability: whether `import paramiko` succeeds, whether
`which sshpass` reports the helper (returncode 0), whether the
`subprocess.run(['which', 'sshpass'])` call itself raises, and whether
`ssh -V` exits with status 0 on Windows. -/
structure SysEnv where
  paramikoInstalled : Bool
  sshpassInstalled : Bool
  whichRaises : Bool
  sshCheckOk : Bool

/-- `transfer_windows` (lines 41-61): try paramiko, falling to the OpenSSH
backend on `ImportError`.  `transfer_with_windows_openssh` catches every
exception inside its own body and returns `False`, so the `except` branch of
`transfer_windows` — and with it the final
`transfer_with_subprocess_basic` fallback at line 61 — is unreachable. -/
def transfer_windows (e : SysEnv) (passwordGiven : Bool) (p : String)
    (data : List Nat) (oP : ParamikoOracle) (oW : PipeOracle) :
    List (Backend × List Ev) × Bool :=
  if e.paramikoInstalled then
    let r := transfer_with_paramiko p data oP
    ([(Backend.paramiko, r.1)], r.2)
  else
    let r := transfer_with_windows_openssh passwordGiven e.sshCheckOk p data oW
    ([(Backend.windowsOpenssh, r.1)], r.2)

/-- `transfer_unix` (lines 64-87): with a password and a visible `sshpass`
binary, use the sshpass backend; otherwise paramiko if importable; otherwise
the basic subprocess pipe. -/
def transfer_unix (e : SysEnv) (passwordGiven : Bool) (p : String)
    (data : List Nat) (oS : PipeOracle) (oP : ParamikoOracle) (oB : PipeOracle) :
    List (Backend × List Ev) × Bool :=
  if passwordGiven && !e.whichRaises && e.sshpassInstalled then
    let r := transfer_with_sshpass p data oS
    ([(Backend.sshpass, r.1)], r.2)
  else if e.paramikoInstalled then
    let r := transfer_with_paramiko p data oP
    ([(Backend.paramiko, r.1)], r.2)
  else
    let r := transfer_with_subprocess_basic p data oB
    ([(Backend.subprocessBasic, r.1)], r.2)

/-- `transfer_interactive_python` (lines 11-38): if the local file is
missing, report and return `False` with no backend selected; otherwise read
the file and dispatch on the operating system. -/
def transfer_interactive_python (fileExists isWindows : Bool) (e : SysEnv)
    (passwordGiven : Bool) (p : String) (data : List Nat)
    (oP : ParamikoOracle) (oPipe : PipeOracle) :
    List (Backend × List Ev) × Bool :=
  if !fileExists then ([], false)
  else if isWindows then transfer_windows e passwordGiven p data oP oPipe
  else transfer_unix e passwordGiven p data oPipe oP oPipe

/-! ## Trace observations -/

/-- The chunks appended by a trace, in order. -/
def appendsOf (tr : List Ev) : List (List Nat) :=
  tr.filterMap fun ev =>
    match ev with
    | Ev.execAppend c _ => some c
    | Ev.writeAppend c _ => some c
    | _ => none

/-- Modelled from the spec: the remote file's content after the remote shell
executes a trace — a truncate empties it, each append command appends its
chunk's bytes (the escaped payload decodes to the chunk by
`octalEscape_roundtrip`). -/
def remoteContent (tr : List Ev) : List Nat :=
  tr.foldl
    (fun acc ev =>
      match ev with
      | Ev.execTrunc _ => []
      | Ev.writeTrunc _ => []
      | Ev.execAppend c _ => acc ++ c
      | Ev.writeAppend c _ => acc ++ c
      | _ => acc)
    []

/-- Does an event query the remote byte count? -/
def isVerifyEv : Ev → Bool
  | Ev.execVerify _ => true
  | _ => false

/-! ## Structural lemmas about the backend runs -/

/-- Every event produced by the paramiko chunk loop is an append command
carrying its chunk's escape, or an error log. -/
theorem paramikoChunkLoop_shape (p : String) (o : ParamikoOracle) :
    ∀ (chunks : List (List Nat)) (i : Nat) (ev : Ev),
      ev ∈ (paramikoChunkLoop p o chunks i).1 →
      (∃ c, ev = Ev.execAppend c (appendCmd p c)) ∨ ∃ j, ev = Ev.logError j := by
  intro chunks
  induction chunks with
  | nil => intro i ev h; simp [paramikoChunkLoop] at h
  | cons c rest ih =>
      intro i ev h
      by_cases hr : o.execRaises (i + 1) = true
      · simp [paramikoChunkLoop, hr] at h
      · simp only [paramikoChunkLoop, hr, Bool.false_eq_true, if_false,
          List.mem_cons, List.mem_append] at h
        rcases h with h | h | h
        · exact Or.inl ⟨c, h⟩
        · by_cases hst : o.chunkStatus i ≠ 0
          · simp [hst] at h
            exact Or.inr ⟨i, h⟩
          · simp [hst] at h
        · exact ih (i + 1) ev h

/-- Under a non-raising oracle the paramiko chunk loop completes, appends
exactly the given chunks in order, and logs every non-zero exit status. -/
theorem paramikoChunkLoop_noraise (p : String) (o : ParamikoOracle)
    (hr : ∀ k, o.execRaises k = false) :
    ∀ (chunks : List (List Nat)) (i : Nat),
      (paramikoChunkLoop p o chunks i).2 = true ∧
      appendsOf (paramikoChunkLoop p o chunks i).1 = chunks ∧
      ∀ j, j < chunks.length → o.chunkStatus (i + j) ≠ 0 →
        Ev.logError (i + j) ∈ (paramikoChunkLoop p o chunks i).1 := by
  intro chunks
  induction chunks with
  | nil =>
      intro i
      refine ⟨rfl, rfl, ?_⟩
      intro j hj
      simp at hj
  | cons c rest ih =>
      intro i
      obtain ⟨ha, hb, hlog⟩ := ih (i + 1)
      have h1 := hr (i + 1)
      refine ⟨?_, ?_, ?_⟩
      · simp only [paramikoChunkLoop, h1, Bool.false_eq_true, if_false]
        exact ha
      · simp only [paramikoChunkLoop, h1, Bool.false_eq_true, if_false, appendsOf,
          List.filterMap_cons, List.filterMap_append]
        by_cases hst : o.chunkStatus i ≠ 0 <;>
          simp [hst, appendsOf] at hb ⊢ <;> exact hb
      · intro j hj hst
        simp only [paramikoChunkLoop, h1, Bool.false_eq_true, if_false,
          List.mem_cons, List.mem_append]
        cases j with
        | zero =>
            refine Or.inr (Or.inl ?_)
            simp only [Nat.add_zero] at hst
            simp [hst]
        | succ m =>
            have hm : Ev.logError (i + 1 + m) ∈ (paramikoChunkLoop p o rest (i + 1)).1 := by
              refine hlog m ?_ ?_
              · simpa using Nat.lt_of_succ_lt_succ hj
              · have : i + 1 + m = i + (m + 1) := by omega
                rw [this]
                exact hst
            have heq : i + (m + 1) = i + 1 + m := by omega
            rw [heq]
            exact Or.inr (Or.inr hm)

/-- Every event produced by a pipe chunk loop is an append line carrying its
chunk's escape. -/
theorem pipeChunkLoop_shape (p : String) (o : PipeOracle) :
    ∀ (chunks : List (List Nat)) (i : Nat) (ev : Ev),
      ev ∈ (pipeChunkLoop p o chunks i).1 →
      ∃ c, ev = Ev.writeAppend c (appendCmd p c ++ "\n") := by
  intro chunks
  induction chunks with
  | nil => intro i ev h; simp [pipeChunkLoop] at h
  | cons c rest ih =>
      intro i ev h
      by_cases hr : o.writeRaises (i + 1) = true
      · simp [pipeChunkLoop, hr] at h
      · simp only [pipeChunkLoop, hr, Bool.false_eq_true, if_false,
          List.mem_cons] at h
        rcases h with h | h
        · exact ⟨c, h⟩
        · exact ih (i + 1) ev h

/-- Under a non-raising oracle a pipe chunk loop completes and appends
exactly the given chunks in order. -/
theorem pipeChunkLoop_noraise (p : String) (o : PipeOracle)
    (hw : ∀ k, o.writeRaises k = false) :
    ∀ (chunks : List (List Nat)) (i : Nat),
      (pipeChunkLoop p o chunks i).2 = true ∧
      appendsOf (pipeChunkLoop p o chunks i).1 = chunks := by
  intro chunks
  induction chunks with
  | nil => intro i; exact ⟨rfl, rfl⟩
  | cons c rest ih =>
      intro i
      obtain ⟨ha, hb⟩ := ih (i + 1)
      have h1 := hw (i + 1)
      constructor
      · simp only [pipeChunkLoop, h1, Bool.false_eq_true, if_false]
        exact ha
      · simp only [pipeChunkLoop, h1, Bool.false_eq_true, if_false, appendsOf,
          List.filterMap_cons] at hb ⊢
        exact congrArg (c :: ·) hb

/-- Unfolding of `transfer_with_paramiko` under a non-raising oracle:
connect, truncate, the chunk loop, the verification query, close; the
result is exactly the size verifier's verdict. -/
theorem transfer_with_paramiko_noraise (p : String) (data : List Nat)
    (o : ParamikoOracle) (hc : o.connectRaises = false)
    (hr : ∀ k, o.execRaises k = false) :
    transfer_with_paramiko p data o =
      (Ev.connect :: Ev.execTrunc (truncateCmd p) ::
        (paramikoChunkLoop p o (pyChunks data 800) 0).1
        ++ [Ev.execVerify (verifyCmd p), Ev.close],
       verifySize o.sizeResponse data.length) := by
  have hloop := (paramikoChunkLoop_noraise p o hr (pyChunks data 800) 0).1
  unfold transfer_with_paramiko
  simp [hc, hr 0, hr ((pyChunks data 800).length + 1), hloop]

/-- Unfolding of `pipeTransfer` under a non-raising oracle: connect,
truncate line, the chunk loop, the `exit` line, the wait (and a kill on
timeout); the result is exactly `exitsInTime`. -/
theorem pipeTransfer_noraise (S t : Nat) (p : String) (data : List Nat)
    (o : PipeOracle) (hs : o.spawnRaises = false)
    (hw : ∀ k, o.writeRaises k = false) :
    pipeTransfer S t p data o =
      (Ev.connect :: Ev.writeTrunc (truncateCmd p ++ "\n") ::
        (pipeChunkLoop p o (pyChunks data S) 0).1
        ++ [Ev.writeExit "exit\n", Ev.waitProc t]
        ++ (if o.exitsInTime = true then [] else [Ev.kill]),
       o.exitsInTime) := by
  have hloop := (pipeChunkLoop_noraise p o hw (pyChunks data S) 0).1
  cases he : o.exitsInTime <;>
    · unfold pipeTransfer
      simp [hs, hw 0, hw ((pyChunks data S).length + 1), hloop, he]

/-! ## Claim theorems -/

/-- **C3** In the size-verification phase of the client-library backend: a
parsed remote count equal to the local length reports success, a differing
parsed count reports failure, and an unparsable response reports success;
and the backend's result is exactly this verifier's verdict. -/
theorem verifier_cases (s : String) (L : Nat) :
    (parsePyInt s = some (L : Int) → verifySize s L = true) ∧
    (∀ n : Int, parsePyInt s = some n → n ≠ (L : Int) → verifySize s L = false) ∧
    (parsePyInt s = none → verifySize s L = true) ∧
    (∀ (p : String) (data : List Nat) (o : ParamikoOracle),
      o.connectRaises = false → (∀ k, o.execRaises k = false) →
      o.sizeResponse = s → data.length = L →
      (transfer_with_paramiko p data o).2 = verifySize s L) := by
  refine ⟨?_, ?_, ?_, ?_⟩
  · intro h
    unfold verifySize
    rw [h]
    simp
  · intro n h hne
    unfold verifySize
    rw [h]
    simp [hne]
  · intro h
    unfold verifySize
    rw [h]
  · intro p data o hc hr hs hl
    rw [transfer_with_paramiko_noraise p data o hc hr, hs, hl]

/-- Witness for C3: equal count 2048 → success, mismatched 2047 → failure,
unparsable "abc" → success, and the backend result agrees. -/
theorem verifier_cases_witness :
    verifySize "2048" 2048 = true ∧ verifySize "2047" 2048 = false ∧
    verifySize "abc" 2048 = true ∧
    (transfer_with_paramiko "f" [5, 6] ⟨false, fun _ => false, fun _ => 0, "2"⟩).2 =
      verifySize "2" 2 :=
  ⟨(verifier_cases "2048" 2048).1 (by decide),
   (verifier_cases "2047" 2048).2.1 2047 (by decide) (by decide),
   (verifier_cases "abc" 2048).2.2.1 (by decide),
   (verifier_cases "2" 2).2.2.2 "f" [5, 6] ⟨false, fun _ => false, fun _ => 0, "2"⟩
     rfl (fun _ => rfl) rfl rfl⟩

/-- **C4** For chunk size `S ≥ 1` the loop produces `⌈L/S⌉` chunks covering
the buffer exactly once in order; for a 2048-byte buffer and `S = 800` the
chunk sizes are 800, 800, 448, with the truncate command before any chunk
and the verification command exactly once after the last chunk. -/
theorem chunking_covers (S : Nat) (hS : 1 ≤ S) (data big : List Nat)
    (hbig : big.length = 2048) (p : String) (o : ParamikoOracle)
    (hc : o.connectRaises = false) (hr : ∀ k, o.execRaises k = false) :
    (pyChunks data S).length = (data.length + S - 1) / S ∧
    (pyChunks data S).flatten = data ∧
    (pyChunks big 800).map List.length = [800, 800, 448] ∧
    ∃ mids,
      (transfer_with_paramiko p big o).1 =
        Ev.connect :: Ev.execTrunc (truncateCmd p) :: mids
          ++ [Ev.execVerify (verifyCmd p), Ev.close] ∧
      appendsOf mids = pyChunks big 800 ∧
      ∀ ev ∈ mids, ev ≠ Ev.connect ∧ ev ≠ Ev.execTrunc (truncateCmd p) ∧
        ev ≠ Ev.execVerify (verifyCmd p) ∧ ev ≠ Ev.close := by
  refine ⟨pyChunks_length data S hS, pyChunks_flatten data S hS,
    pyChunks_sizes_2048 big hbig,
    (paramikoChunkLoop p o (pyChunks big 800) 0).1, ?_, ?_, ?_⟩
  · rw [transfer_with_paramiko_noraise p big o hc hr]
  · exact (paramikoChunkLoop_noraise p o hr (pyChunks big 800) 0).2.1
  · intro ev hev
    rcases paramikoChunkLoop_shape p o (pyChunks big 800) 0 ev hev with ⟨c, rfl⟩ | ⟨j, rfl⟩ <;>
      exact ⟨by simp, by simp, by simp, by simp⟩

/-- Witness for C4 at a 2048-byte buffer of zeros. -/
theorem chunking_covers_witness :
    (pyChunks (List.replicate 2048 0) 800).map List.length = [800, 800, 448] :=
  (chunking_covers 800 (by decide) [] (List.replicate 2048 0)
    (by simp only [List.length_replicate]) "f"
    ⟨false, fun _ => false, fun _ => 0, ""⟩ rfl (fun _ => rfl)).2.2.1

/-- **C7** For a zero-length local file the streaming loop emits no `printf`
append command at all: the trace is connect, truncate, verification query,
close, and the resulting remote file content is empty. -/
theorem empty_buffer_only_truncate (p : String) (o : ParamikoOracle)
    (hc : o.connectRaises = false) (hr : ∀ k, o.execRaises k = false) :
    (transfer_with_paramiko p [] o).1 =
      [Ev.connect, Ev.execTrunc (truncateCmd p), Ev.execVerify (verifyCmd p),
       Ev.close] ∧
    appendsOf (transfer_with_paramiko p [] o).1 = [] ∧
    remoteContent (transfer_with_paramiko p [] o).1 = [] := by
  have h := transfer_with_paramiko_noraise p [] o hc hr
  refine ⟨?_, ?_, ?_⟩ <;> rw [h] <;> rfl

/-- Witness for C7 at a concrete oracle. -/
theorem empty_buffer_only_truncate_witness :
    appendsOf
        (transfer_with_paramiko "f" []
          ⟨false, fun _ => false, fun _ => 0, "0"⟩).1 = [] ∧
    remoteContent
        (transfer_with_paramiko "f" []
          ⟨false, fun _ => false, fun _ => 0, "0"⟩).1 = [] :=
  ⟨(empty_buffer_only_truncate "f" ⟨false, fun _ => false, fun _ => 0, "0"⟩
      rfl (fun _ => rfl)).2.1,
   (empty_buffer_only_truncate "f" ⟨false, fun _ => false, fun _ => 0, "0"⟩
      rfl (fun _ => rfl)).2.2⟩

/-- **C8** A chunk command with non-zero exit status is logged, all chunks
are still appended, and the overall result is the size verifier's verdict —
independent of every exit status. -/
theorem chunk_failure_logged_not_aborting (p : String) (data : List Nat)
    (o : ParamikoOracle) (hc : o.connectRaises = false)
    (hr : ∀ k, o.execRaises k = false) (i : Nat)
    (hi : i < (pyChunks data 800).length) (hst : o.chunkStatus i ≠ 0) :
    Ev.logError i ∈ (transfer_with_paramiko p data o).1 ∧
    appendsOf (transfer_with_paramiko p data o).1 = pyChunks data 800 ∧
    (transfer_with_paramiko p data o).2 = verifySize o.sizeResponse data.length := by
  have h := transfer_with_paramiko_noraise p data o hc hr
  obtain ⟨h2, happ, hlog⟩ := paramikoChunkLoop_noraise p o hr (pyChunks data 800) 0
  refine ⟨?_, ?_, ?_⟩
  · rw [h]
    have hm : Ev.logError i ∈ (paramikoChunkLoop p o (pyChunks data 800) 0).1 := by
      simpa using hlog i hi (by simpa using hst)
    exact List.mem_cons_of_mem _ (List.mem_cons_of_mem _ (List.mem_append_left _ hm))
  · rw [h]
    simp only [appendsOf, List.filterMap_cons, List.filterMap_append] at happ ⊢
    simpa [appendsOf] using happ
  · rw [h]

/-- Witness for C8: a failing chunk is logged and does not change the
verifier-based result. -/
theorem chunk_failure_logged_not_aborting_witness :
    Ev.logError 0 ∈
      (transfer_with_paramiko "f" [9]
        ⟨false, fun _ => false, fun _ => 1, "1"⟩).1 :=
  (chunk_failure_logged_not_aborting "f" [9]
    ⟨false, fun _ => false, fun _ => 1, "1"⟩ rfl (fun _ => rfl) 0
    (by decide) (by decide)).1

/-- **C6** If the local file does not exist, the transfer reports failure
immediately: no backend is selected and no trace of remote commands exists. -/
theorem missing_file_immediate_failure (isW : Bool) (e : SysEnv) (pw : Bool)
    (p : String) (data : List Nat) (oP : ParamikoOracle) (oPipe : PipeOracle) :
    transfer_interactive_python false isW e pw p data oP oPipe = ([], false) := rfl

/-- In a non-raising pipe run, the appended chunks are exactly the loop's
chunk list. -/
theorem appendsOf_pipeTransfer (S t : Nat) (p : String) (data : List Nat)
    (o : PipeOracle) (hs : o.spawnRaises = false)
    (hw : ∀ k, o.writeRaises k = false) :
    appendsOf (pipeTransfer S t p data o).1 = pyChunks data S := by
  rw [pipeTransfer_noraise S t p data o hs hw]
  have h := (pipeChunkLoop_noraise p o hw (pyChunks data S) 0).2
  cases he : o.exitsInTime <;>
    · simp only [he, appendsOf, List.filterMap_cons, List.filterMap_append,
        Bool.false_eq_true, if_false, if_true]
      simpa [appendsOf] using h

/-- A pipe run never queries the remote byte count. -/
theorem pipeTransfer_no_verify (S t : Nat) (p : String) (data : List Nat)
    (o : PipeOracle) (hs : o.spawnRaises = false)
    (hw : ∀ k, o.writeRaises k = false) :
    ((pipeTransfer S t p data o).1.all fun ev => !isVerifyEv ev) = true := by
  rw [pipeTransfer_noraise S t p data o hs hw]
  have hall : ∀ l : List Ev, (∀ e ∈ l, isVerifyEv e = false) →
      (l.all fun ev => !isVerifyEv ev) = true := by
    intro l hl
    rw [List.all_eq_true]
    intro e he'
    simp [hl e he']
  apply hall
  intro e he'
  cases heT : o.exitsInTime <;> rw [heT] at he' <;>
    cases e <;>
      first
        | rfl
        | (exfalso
           simp at he'
           obtain ⟨c, hcon⟩ := pipeChunkLoop_shape p o (pyChunks data S) 0 _ he'
           exact absurd hcon (by simp))

/-- Counterexample to C2 as stated: the sshpass backend reports success for
a one-byte transfer while its complete trace — connect, truncate line, one
append line, `exit`, wait — contains no byte-count verification command at
all, so no comparison of remote and local sizes precedes its result. -/
theorem sshpass_success_without_size_check :
    (transfer_with_sshpass "f" [7] ⟨false, fun _ => false, true⟩).2 = true ∧
    (transfer_with_sshpass "f" [7] ⟨false, fun _ => false, true⟩).1 =
      [Ev.connect, Ev.writeTrunc "> f\n",
       Ev.writeAppend [7] "printf \"\\007\" >> f\n",
       Ev.writeExit "exit\n", Ev.waitProc 10] ∧
    ((transfer_with_sshpass "f" [7] ⟨false, fun _ => false, true⟩).1.all
      fun ev => !isVerifyEv ev) = true := by
  decide

/-- **C2 (amended)** All four backends connect, truncate the remote target
and stream all chunks; but only the client-library backend then verifies
the transfer by comparing byte counts.  The three pipe backends (sshpass,
Windows OpenSSH, raw subprocess) instead write `exit` and report success
iff the process terminates within their timeout, with no size
verification. -/
theorem four_phase_protocol (p : String) (data : List Nat)
    (oP : ParamikoOracle) (o1 o2 o3 : PipeOracle)
    (hcP : oP.connectRaises = false) (hrP : ∀ k, oP.execRaises k = false)
    (hs1 : o1.spawnRaises = false) (hw1 : ∀ k, o1.writeRaises k = false)
    (hs2 : o2.spawnRaises = false) (hw2 : ∀ k, o2.writeRaises k = false)
    (hs3 : o3.spawnRaises = false) (hw3 : ∀ k, o3.writeRaises k = false) :
    (transfer_with_paramiko p data oP =
      (Ev.connect :: Ev.execTrunc (truncateCmd p) ::
        (paramikoChunkLoop p oP (pyChunks data 800) 0).1
        ++ [Ev.execVerify (verifyCmd p), Ev.close],
       verifySize oP.sizeResponse data.length)) ∧
    appendsOf (transfer_with_paramiko p data oP).1 = pyChunks data 800 ∧
    (transfer_with_sshpass p data o1 =
      (Ev.connect :: Ev.writeTrunc (truncateCmd p ++ "\n") ::
        (pipeChunkLoop p o1 (pyChunks data 800) 0).1
        ++ [Ev.writeExit "exit\n", Ev.waitProc 10]
        ++ (if o1.exitsInTime = true then [] else [Ev.kill]),
       o1.exitsInTime)) ∧
    appendsOf (transfer_with_sshpass p data o1).1 = pyChunks data 800 ∧
    ((transfer_with_sshpass p data o1).1.all fun ev => !isVerifyEv ev) = true ∧
    (transfer_with_subprocess_basic p data o2 =
      (Ev.connect :: Ev.writeTrunc (truncateCmd p ++ "\n") ::
        (pipeChunkLoop p o2 (pyChunks data 800) 0).1
        ++ [Ev.writeExit "exit\n", Ev.waitProc 30]
        ++ (if o2.exitsInTime = true then [] else [Ev.kill]),
       o2.exitsInTime)) ∧
    appendsOf (transfer_with_subprocess_basic p data o2).1 = pyChunks data 800 ∧
    ((transfer_with_subprocess_basic p data o2).1.all
      fun ev => !isVerifyEv ev) = true ∧
    (transfer_with_windows_openssh false true p data o3 =
      (Ev.connect :: Ev.writeTrunc (truncateCmd p ++ "\n") ::
        (pipeChunkLoop p o3 (pyChunks data 500) 0).1
        ++ [Ev.writeExit "exit\n", Ev.waitProc 30]
        ++ (if o3.exitsInTime = true then [] else [Ev.kill]),
       o3.exitsInTime)) ∧
    appendsOf (transfer_with_windows_openssh false true p data o3).1 =
      pyChunks data 500 ∧
    ((transfer_with_windows_openssh false true p data o3).1.all
      fun ev => !isVerifyEv ev) = true := by
  refine ⟨transfer_with_paramiko_noraise p data oP hcP hrP, ?_, ?_, ?_, ?_, ?_, ?_, ?_, ?_, ?_, ?_⟩
  · rw [transfer_with_paramiko_noraise p data oP hcP hrP]
    have happ := (paramikoChunkLoop_noraise p oP hrP (pyChunks data 800) 0).2.1
    simp only [appendsOf, List.filterMap_cons, List.filterMap_append] at happ ⊢
    simpa [appendsOf] using happ
  · exact pipeTransfer_noraise 800 10 p data o1 hs1 hw1
  · exact appendsOf_pipeTransfer 800 10 p data o1 hs1 hw1
  · exact pipeTransfer_no_verify 800 10 p data o1 hs1 hw1
  · exact pipeTransfer_noraise 800 30 p data o2 hs2 hw2
  · exact appendsOf_pipeTransfer 800 30 p data o2 hs2 hw2
  · exact pipeTransfer_no_verify 800 30 p data o2 hs2 hw2
  · exact pipeTransfer_noraise 500 30 p data o3 hs3 hw3
  · exact appendsOf_pipeTransfer 500 30 p data o3 hs3 hw3
  · exact pipeTransfer_no_verify 500 30 p data o3 hs3 hw3

/-- Witness for the amended C2 at concrete oracles and a two-byte buffer. -/
theorem four_phase_protocol_witness :
    appendsOf
        (transfer_with_paramiko "f" [1, 2]
          ⟨false, fun _ => false, fun _ => 0, "2"⟩).1 = pyChunks [1, 2] 800 ∧
    (transfer_with_sshpass "f" [1, 2] ⟨false, fun _ => false, true⟩).2 = true :=
  ⟨(four_phase_protocol "f" [1, 2] ⟨false, fun _ => false, fun _ => 0, "2"⟩
      ⟨false, fun _ => false, true⟩ ⟨false, fun _ => false, true⟩
      ⟨false, fun _ => false, true⟩ rfl (fun _ => rfl) rfl (fun _ => rfl)
      rfl (fun _ => rfl) rfl (fun _ => rfl)).2.1,
   congrArg Prod.snd
     ((four_phase_protocol "f" [1, 2] ⟨false, fun _ => false, fun _ => 0, "2"⟩
        ⟨false, fun _ => false, true⟩ ⟨false, fun _ => false, true⟩
        ⟨false, fun _ => false, true⟩ rfl (fun _ => rfl) rfl (fun _ => rfl)
        rfl (fun _ => rfl) rfl (fun _ => rfl)).2.2.1)⟩

/-- Counterexample to C5 as stated: on Windows with paramiko missing and
`ssh -V` failing, the OpenSSH backend returns failure without any remote
command, and the raw-pipe fallback is never attempted — the claimed third
step of the Windows chain does not happen. -/
theorem windows_no_pipe_fallback :
    transfer_windows ⟨false, false, false, false⟩ false "f" [7]
        ⟨false, fun _ => false, fun _ => 0, ""⟩ ⟨false, fun _ => false, true⟩ =
      ([(Backend.windowsOpenssh, [])], false) ∧
    Backend.subprocessBasic ∉
      (transfer_windows ⟨false, false, false, false⟩ false "f" [7]
        ⟨false, fun _ => false, fun _ => 0, ""⟩
        ⟨false, fun _ => false, true⟩).1.map Prod.fst := by
  decide

/-- **C5 (amended)** The selection tree: on Windows, paramiko when
importable, else the OpenSSH-client backend — whose result, success or
failure, is final, so the raw-pipe fallback written after it is
unreachable; on Unix, the sshpass helper when a password was supplied and
the helper binary is found, else paramiko when importable, else the raw
pipe.  A backend whose dependency is absent is skipped (paramiko, sshpass)
or, for the OpenSSH backend with `ssh -V` failing, attempts no remote
command and yields failure. -/
theorem backend_selection (e : SysEnv) (pw : Bool) (p : String)
    (data : List Nat) (oP : ParamikoOracle) (oW oS oB : PipeOracle) :
    (e.paramikoInstalled = true →
      transfer_windows e pw p data oP oW =
        ([(Backend.paramiko, (transfer_with_paramiko p data oP).1)],
         (transfer_with_paramiko p data oP).2)) ∧
    (e.paramikoInstalled = false →
      transfer_windows e pw p data oP oW =
        ([(Backend.windowsOpenssh,
            (transfer_with_windows_openssh pw e.sshCheckOk p data oW).1)],
         (transfer_with_windows_openssh pw e.sshCheckOk p data oW).2)) ∧
    (e.sshCheckOk = false →
      transfer_with_windows_openssh pw e.sshCheckOk p data oW = ([], false)) ∧
    ((pw && !e.whichRaises && e.sshpassInstalled) = true →
      transfer_unix e pw p data oS oP oB =
        ([(Backend.sshpass, (transfer_with_sshpass p data oS).1)],
         (transfer_with_sshpass p data oS).2)) ∧
    ((pw && !e.whichRaises && e.sshpassInstalled) = false →
      e.paramikoInstalled = true →
      transfer_unix e pw p data oS oP oB =
        ([(Backend.paramiko, (transfer_with_paramiko p data oP).1)],
         (transfer_with_paramiko p data oP).2)) ∧
    ((pw && !e.whichRaises && e.sshpassInstalled) = false →
      e.paramikoInstalled = false →
      transfer_unix e pw p data oS oP oB =
        ([(Backend.subprocessBasic,
            (transfer_with_subprocess_basic p data oB).1)],
         (transfer_with_subprocess_basic p data oB).2)) := by
  refine ⟨?_, ?_, ?_, ?_, ?_, ?_⟩
  · intro h
    simp [transfer_windows, h]
  · intro h
    simp [transfer_windows, h]
  · intro h
    simp [transfer_with_windows_openssh, h]
  · intro h
    simp [transfer_unix, h]
  · intro h hp
    simp [transfer_unix, h, hp]
  · intro h hp
    simp [transfer_unix, h, hp]

/-- Witness for the amended C5 at a concrete environment: Unix, password
given, sshpass present. -/
theorem backend_selection_witness :
    transfer_unix ⟨false, true, false, true⟩ true "f" [7]
        ⟨false, fun _ => false, true⟩ ⟨false, fun _ => false, fun _ => 0, ""⟩
        ⟨false, fun _ => false, true⟩ =
      ([(Backend.sshpass,
          (transfer_with_sshpass "f" [7] ⟨false, fun _ => false, true⟩).1)],
       (transfer_with_sshpass "f" [7] ⟨false, fun _ => false, true⟩).2) :=
  (backend_selection ⟨false, true, false, true⟩ true "f" [7]
    ⟨false, fun _ => false, fun _ => 0, ""⟩ ⟨false, fun _ => false, true⟩
    ⟨false, fun _ => false, true⟩ ⟨false, fun _ => false, true⟩).2.2.2.1 rfl

/-- Does an event close the client session? -/
def isCloseEv : Ev → Bool
  | Ev.close => true
  | _ => false

/-- Does an event wait on the spawned process? -/
def isWaitEv : Ev → Bool
  | Ev.waitProc _ => true
  | _ => false

/-- In a non-raising pipe run the process is always waited on. -/
theorem waitProc_mem_pipe (S t : Nat) (p : String) (data : List Nat)
    (o : PipeOracle) (hs : o.spawnRaises = false)
    (hw : ∀ k, o.writeRaises k = false) :
    Ev.waitProc t ∈ (pipeTransfer S t p data o).1 := by
  rw [pipeTransfer_noraise S t p data o hs hw]
  cases he : o.exitsInTime <;> simp [he]

/-- In a non-raising pipe run that times out, the process is killed. -/
theorem kill_mem_pipe (S t : Nat) (p : String) (data : List Nat)
    (o : PipeOracle) (hs : o.spawnRaises = false)
    (hw : ∀ k, o.writeRaises k = false) (hT : o.exitsInTime = false) :
    Ev.kill ∈ (pipeTransfer S t p data o).1 := by
  rw [pipeTransfer_noraise S t p data o hs hw]
  simp [hT]

/-- Counterexample to C9 as stated: when the truncate `exec_command` raises,
the paramiko backend returns failure without ever closing its session, and
when a chunk `stdin.write` raises, the sshpass backend returns failure
without waiting on or killing its process. -/
theorem handle_leaked_on_exception :
    ((transfer_with_paramiko "f" [7]
        ⟨false, fun k => k == 0, fun _ => 0, "1"⟩).1.all
      fun ev => !isCloseEv ev) = true ∧
    (transfer_with_paramiko "f" [7]
        ⟨false, fun k => k == 0, fun _ => 0, "1"⟩).2 = false ∧
    ((transfer_with_sshpass "f" [7] ⟨false, fun k => k == 1, true⟩).1.all
      fun ev => !isWaitEv ev && !(ev == Ev.kill)) = true ∧
    (transfer_with_sshpass "f" [7] ⟨false, fun k => k == 1, true⟩).2 = false := by
  decide

/-- **C9 (amended)** On every exception-free exit path the handle is
released: the client-library backend closes its session (also when
verification fails), and the pipe backends wait on the process with their
timeout and kill it if the timeout expires.  On a path where a remote call
raises, the `except` handler returns failure without closing, waiting or
killing. -/
theorem handle_release (p : String) (data : List Nat) (oP : ParamikoOracle)
    (o1 o2 o3 : PipeOracle) (hc : oP.connectRaises = false)
    (hr : ∀ k, oP.execRaises k = false)
    (hs1 : o1.spawnRaises = false) (hw1 : ∀ k, o1.writeRaises k = false)
    (hs2 : o2.spawnRaises = false) (hw2 : ∀ k, o2.writeRaises k = false)
    (hs3 : o3.spawnRaises = false) (hw3 : ∀ k, o3.writeRaises k = false) :
    Ev.close ∈ (transfer_with_paramiko p data oP).1 ∧
    Ev.waitProc 10 ∈ (transfer_with_sshpass p data o1).1 ∧
    (o1.exitsInTime = false → Ev.kill ∈ (transfer_with_sshpass p data o1).1) ∧
    Ev.waitProc 30 ∈ (transfer_with_subprocess_basic p data o2).1 ∧
    (o2.exitsInTime = false →
      Ev.kill ∈ (transfer_with_subprocess_basic p data o2).1) ∧
    Ev.waitProc 30 ∈ (transfer_with_windows_openssh false true p data o3).1 ∧
    (o3.exitsInTime = false →
      Ev.kill ∈ (transfer_with_windows_openssh false true p data o3).1) ∧
    (∀ o' : ParamikoOracle, o'.connectRaises = false → o'.execRaises 0 = true →
      transfer_with_paramiko p data o' = ([Ev.connect], false)) ∧
    (∀ o' : PipeOracle, o'.spawnRaises = false → o'.writeRaises 0 = true →
      transfer_with_sshpass p data o' = ([Ev.connect], false)) := by
  refine ⟨?_, waitProc_mem_pipe 800 10 p data o1 hs1 hw1,
    kill_mem_pipe 800 10 p data o1 hs1 hw1,
    waitProc_mem_pipe 800 30 p data o2 hs2 hw2,
    kill_mem_pipe 800 30 p data o2 hs2 hw2,
    waitProc_mem_pipe 500 30 p data o3 hs3 hw3,
    kill_mem_pipe 500 30 p data o3 hs3 hw3, ?_, ?_⟩
  · rw [transfer_with_paramiko_noraise p data oP hc hr]
    simp
  · intro o' hc' hr0
    simp [transfer_with_paramiko, hc', hr0]
  · intro o' hs' hw0
    simp [transfer_with_sshpass, pipeTransfer, hs', hw0]

/-- Witness for the amended C9 at concrete oracles. -/
theorem handle_release_witness :
    Ev.close ∈
      (transfer_with_paramiko "f" [7]
        ⟨false, fun _ => false, fun _ => 0, "1"⟩).1 ∧
    Ev.kill ∈
      (transfer_with_sshpass "f" [7] ⟨false, fun _ => false, false⟩).1 :=
  ⟨(handle_release "f" [7] ⟨false, fun _ => false, fun _ => 0, "1"⟩
      ⟨false, fun _ => false, false⟩ ⟨false, fun _ => false, true⟩
      ⟨false, fun _ => false, true⟩ rfl (fun _ => rfl) rfl (fun _ => rfl)
      rfl (fun _ => rfl) rfl (fun _ => rfl)).1,
   (handle_release "f" [7] ⟨false, fun _ => false, fun _ => 0, "1"⟩
      ⟨false, fun _ => false, false⟩ ⟨false, fun _ => false, true⟩
      ⟨false, fun _ => false, true⟩ rfl (fun _ => rfl) rfl (fun _ => rfl)
      rfl (fun _ => rfl) rfl (fun _ => rfl)).2.2.1 rfl⟩

/-- In any paramiko run, every append event carries exactly the command
`printf "<escape>" >> <remote_path>` for its chunk. -/
theorem paramiko_appendCmd_shape (p : String) (data : List Nat)
    (o : ParamikoOracle) :
    ∀ ev ∈ (transfer_with_paramiko p data o).1, ∀ ch cmd,
      ev = Ev.execAppend ch cmd → cmd = appendCmd p ch := by
  intro ev hev ch cmd heq
  subst heq
  have hloop : Ev.execAppend ch cmd ∈ (paramikoChunkLoop p o (pyChunks data 800) 0).1 →
      cmd = appendCmd p ch := by
    intro hl
    rcases paramikoChunkLoop_shape p o (pyChunks data 800) 0 _ hl with ⟨c, hcc⟩ | ⟨j, hj⟩
    · simp only [Ev.execAppend.injEq] at hcc
      obtain ⟨rfl, h2⟩ := hcc
      exact h2
    · simp at hj
  simp only [transfer_with_paramiko] at hev
  split_ifs at hev with h1 h2 h3 h4 <;>
    simp only [List.mem_cons, List.mem_append, List.mem_singleton,
      List.not_mem_nil, reduceCtorEq, false_or, or_false] at hev <;>
    exact hloop hev

/-- In any pipe-backend run, every append event carries exactly the line
`printf "<escape>" >> <remote_path>` followed by a newline. -/
theorem pipe_appendCmd_shape (S t : Nat) (p : String) (data : List Nat)
    (o : PipeOracle) :
    ∀ ev ∈ (pipeTransfer S t p data o).1, ∀ ch line,
      ev = Ev.writeAppend ch line → line = appendCmd p ch ++ "\n" := by
  intro ev hev ch line heq
  subst heq
  have hloop : Ev.writeAppend ch line ∈ (pipeChunkLoop p o (pyChunks data S) 0).1 →
      line = appendCmd p ch ++ "\n" := by
    intro hl
    obtain ⟨c, hcc⟩ := pipeChunkLoop_shape p o (pyChunks data S) 0 _ hl
    simp only [Ev.writeAppend.injEq] at hcc
    obtain ⟨rfl, h2⟩ := hcc
    exact h2
  simp only [pipeTransfer] at hev
  split_ifs at hev with h1 h2 h3 h4 h5 <;>
    simp only [List.mem_cons, List.mem_append, List.mem_singleton,
      List.not_mem_nil, reduceCtorEq, false_or, or_false] at hev <;>
    exact hloop hev

/-- **C10** Every emitted remote command embeds `remote_path` verbatim by
literal interpolation, with no quoting or escaping: the truncate command is
exactly `'> ' + remote_path`, each append command is exactly
`'printf "' + escape + '" >> ' + remote_path` (in both the client-library
and the pipe backends), the verification query is `'wc -c < ' + remote_path`,
and every character of `remote_path` — including spaces, quotes and
semicolons — lands unchanged in the command text. -/
theorem commands_embed_path_verbatim (p : String) (c : List Nat)
    (data : List Nat) (o : ParamikoOracle) (oPipe : PipeOracle) :
    truncateCmd p = "> " ++ p ∧
    appendCmd p c = "printf \"" ++ octalEscape c ++ "\" >> " ++ p ∧
    verifyCmd p = "wc -c < " ++ p ∧
    (truncateCmd p).data = '>' :: ' ' :: p.data ∧
    (appendCmd p c).data =
      ("printf \"" ++ octalEscape c ++ "\" >> ").data ++ p.data ∧
    (∀ ch ∈ p.data, ch ∈ (truncateCmd p).data) ∧
    (∀ ev ∈ (transfer_with_paramiko p data o).1, ∀ ch cmd,
      ev = Ev.execAppend ch cmd → cmd = appendCmd p ch) ∧
    (∀ ev ∈ (transfer_with_sshpass p data oPipe).1, ∀ ch line,
      ev = Ev.writeAppend ch line → line = appendCmd p ch ++ "\n") ∧
    truncateCmd "a b; c \"d\"" = "> a b; c \"d\"" := by
  refine ⟨rfl, rfl, rfl, rfl, ?_, ?_, paramiko_appendCmd_shape p data o,
    pipe_appendCmd_shape 800 10 p data oPipe, rfl⟩
  · rw [appendCmd, data_append]
  · intro ch hch
    exact List.mem_cons_of_mem _ (List.mem_cons_of_mem _ hch)

/-- Witness for C10: a path with spaces, a semicolon and quotes is embedded
verbatim in the truncate command. -/
theorem commands_embed_path_verbatim_witness :
    truncateCmd "a b; c \"d\"" = "> a b; c \"d\"" :=
  (commands_embed_path_verbatim "x" [] [] ⟨false, fun _ => false, fun _ => 0, ""⟩
    ⟨false, fun _ => false, true⟩).2.2.2.2.2.2.2.2
